import Mathlib

/-!
Shallow embedding of the config-extraction and code-generation pipeline of
`src/tools/parse_wt_maps.py` (the Tailgunner repository's map parser).

Conventions of the embedding:
* Python `float` values produced from the decimal lexemes captured by the
  patterns are modelled as rationals (`ℚ`); none of the verified properties
  depends on binary rounding, only on presence/absence and on the success or
  failure of the conversion.
* Python's `re.search` with the concrete patterns of the source
  (`mapSize\s*:\s*\[\s*([\d.]+)\s*,\s*([\d.]+)\s*\]`,
  `gridStep\s*:\s*([\d.]+)`, `airGridStep\s*:\s*([\d.]+)`,
  `navalGridStep\s*:\s*([\d.]+)`) is modelled by deterministic left-to-right
  scanners.  This is exact for these patterns: every pair of adjacent atoms
  (`\s*` before `:`, `\s*` before `[\d.]+`, `[\d.]+` before `\s*`, …) has
  disjoint character classes, so the greedy maximal-munch run of each class is
  the only possible match and no backtracking can change the outcome.
  `\d` and `\s` are modelled at their ASCII meaning.
* A Python function that may raise, with the caller catching the exception and
  substituting the empty dict `{}` (which is falsy), is modelled as an
  `Option`-valued function where `none` stands for the caught-exception / falsy
  `{}` result.
-/

namespace Tailgunner

/-- ASCII model of the `\s` class of the patterns. -/
def isSpaceC (c : Char) : Bool :=
  c == ' ' || c == '\t' || c == '\n' || c == '\r' || c == '\x0b' || c == '\x0c'

/-- The `[\d.]` character class of the numeric captures: a digit or a period. -/
def isNumC (c : Char) : Bool := c.isDigit || c == '.'

/-- Match a literal token at the head of `s`, returning the rest on success. -/
def matchLit : List Char → List Char → Option (List Char)
  | [], s => some s
  | _ :: _, [] => none
  | c :: cs, d :: ds => if c = d then matchLit cs ds else none

/-- Try the pattern `key ++ \s* : \s* ([\d.]+)` anchored at the start of `s`;
on success return the (greedy, maximal) capture. -/
def matchNumAt (key : List Char) (s : List Char) : Option (List Char) :=
  match matchLit key s with
  | none => none
  | some r1 =>
    match r1.dropWhile isSpaceC with
    | [] => none
    | x :: r3 =>
      if x = ':' then
        let cap := (r3.dropWhile isSpaceC).takeWhile isNumC
        if cap.isEmpty then none else some cap
      else none

/-- `re.search` semantics for the single-number patterns: try each start
position from the left, first full match wins. -/
def searchNum (key : List Char) : List Char → Option (List Char)
  | [] => matchNumAt key []
  | c :: t =>
    match matchNumAt key (c :: t) with
    | some cap => some cap
    | none => searchNum key t

/-- Try `mapSize\s*:\s*\[\s*([\d.]+)\s*,\s*([\d.]+)\s*\]` anchored at the start
of `s`; on success return the two captures. -/
def matchMapSizeAt (s : List Char) : Option (List Char × List Char) :=
  match matchLit "mapSize".toList s with
  | none => none
  | some r1 =>
    match r1.dropWhile isSpaceC with
    | [] => none
    | x :: r3 =>
      if x = ':' then
        match r3.dropWhile isSpaceC with
        | [] => none
        | y :: r5 =>
          if y = '[' then
            let r6 := r5.dropWhile isSpaceC
            let cap1 := r6.takeWhile isNumC
            if cap1.isEmpty then none else
              match (r6.dropWhile isNumC).dropWhile isSpaceC with
              | [] => none
              | z :: r8 =>
                if z = ',' then
                  let r9 := r8.dropWhile isSpaceC
                  let cap2 := r9.takeWhile isNumC
                  if cap2.isEmpty then none else
                    match (r9.dropWhile isNumC).dropWhile isSpaceC with
                    | [] => none
                    | w :: _ => if w = ']' then some (cap1, cap2) else none
                else none
          else none
      else none

/-- `re.search` semantics for the map-size pattern. -/
def searchMapSize : List Char → Option (List Char × List Char)
  | [] => matchMapSizeAt []
  | c :: t =>
    match matchMapSizeAt (c :: t) with
    | some caps => some caps
    | none => searchMapSize t

/-- Numeric value of a digit string, most significant digit first. -/
def digitsVal (ds : List Char) : ℕ :=
  ds.foldl (fun a c => 10 * a + (c.toNat - '0'.toNat)) 0

/-- Rational value of a decimal lexeme `intpart[.fracpart]`. -/
def decToQ (s : List Char) : ℚ :=
  let ip := s.takeWhile Char.isDigit
  let rest := s.dropWhile Char.isDigit
  let fp : List Char := match rest with | '.' :: fs => fs | _ => []
  (digitsVal ip : ℚ) + (digitsVal fp : ℚ) / (10 : ℚ) ^ fp.length

/-- Python `float(s)` restricted to the strings the captures can produce
(runs of digits and periods): it succeeds exactly on strings with at least one
digit and at most one period, and raises `ValueError` (here: `none`) otherwise,
e.g. on `1.2.3` or `.`. -/
def pyFloat (s : List Char) : Option ℚ :=
  if s.all isNumC && (s.filter (fun c => c == '.')).length ≤ 1 && s.any Char.isDigit
  then some (decToQ s) else none

/-- The `float(match.group(1))` step applied to an optional capture: a missing
match yields the absent field `some none`; a matched capture that fails the
conversion raises, aborting the whole extraction (`none`). -/
def convertOpt : Option (List Char) → Option (Option ℚ)
  | none => some none
  | some cap =>
    match pyFloat cap with
    | some v => some (some v)
    | none => none

/-- The two `float` conversions of the map-size captures. -/
def convertSize : Option (List Char × List Char) → Option (Option (ℚ × ℚ))
  | none => some none
  | some (c1, c2) =>
    match pyFloat c1, pyFloat c2 with
    | some a, some b => some (some (a, b))
    | _, _ => none

/-- Search-then-convert for one single-number field. -/
def extractNum (key : List Char) (cs : List Char) : Option (Option ℚ) :=
  convertOpt (searchNum key cs)

/-- Search-then-convert for the map-size field. -/
def extractSize (cs : List Char) : Option (Option (ℚ × ℚ)) :=
  convertSize (searchMapSize cs)

/-- Lowercasing of the file content (`content.lower()`, ASCII part). -/
def lowerL (s : List Char) : List Char := s.map Char.toLower

/-- Boolean substring test: does `pat` occur contiguously inside the list? -/
def isSubL (pat : List Char) : List Char → Bool
  | [] => pat.isEmpty
  | c :: t => pat.isPrefixOf (c :: t) || isSubL pat t

/-- `tok in content.lower()`: substring membership test. -/
def containsTok (tok : String) (low : List Char) : Bool :=
  isSubL tok.toList low

/-- The game-mode detection of `parse_blk_file`: substring checks in fixed
order ground/tank, air, naval, with fallback `["unknown"]`. -/
def gameModes (content : String) : List String :=
  let low := lowerL content.toList
  let modes :=
    (if containsTok "ground" low || containsTok "tank" low then ["ground"] else []) ++
    (if containsTok "air" low then ["air"] else []) ++
    (if containsTok "naval" low then ["naval"] else [])
  if modes.isEmpty then ["unknown"] else modes

/-- The key token of the `ground_grid_step` pattern (`gridStep`, lowercase g). -/
def groundKey : List Char := "gridStep".toList

/-- The key token of the `air_grid_step` pattern. -/
def airKey : List Char := "airGridStep".toList

/-- The key token of the `naval_grid_step` pattern. -/
def navalKey : List Char := "navalGridStep".toList

/-- The partial record produced by `parse_blk_file` (its `data` dict): the four
optional numeric fields plus the always-present `game_modes`. -/
structure BlkData where
  map_size : Option (ℚ × ℚ)
  ground_grid_step : Option ℚ
  air_grid_step : Option ℚ
  naval_grid_step : Option ℚ
  game_modes : List String
deriving DecidableEq, Repr

/-- `parse_blk_file` on the text content of one config file.  `none` models
the `except` branch returning the falsy `{}` (reached exactly when some
matched capture fails `float` conversion); `some d` models the populated
`data` dict, which always carries `game_modes` and is therefore truthy. -/
def parse_blk_file (content : String) : Option BlkData :=
  let cs := content.toList
  (extractSize cs).bind fun ms =>
  (extractNum groundKey cs).bind fun gg =>
  (extractNum airKey cs).bind fun ag =>
  (extractNum navalKey cs).bind fun ng =>
  some ⟨ms, gg, ag, ng, gameModes content⟩

/-- Fuel-indexed body of Python `str.replace`: one unit of fuel is spent per
examined position, so `s.length` fuel always suffices (a non-empty pattern
consumes at least one character per replacement). -/
def pyReplaceF (pat rep : List Char) : ℕ → List Char → List Char
  | _, [] => []
  | 0, s => s
  | fuel + 1, c :: t =>
    if pat ≠ [] ∧ pat.isPrefixOf (c :: t) = true then
      rep ++ pyReplaceF pat rep fuel ((c :: t).drop pat.length)
    else
      c :: pyReplaceF pat rep fuel t

/-- Python `str.replace(pat, rep)` for a non-empty pattern: replaces every
occurrence, scanning left to right and never re-examining replaced text.
(The source only uses the non-empty patterns `avg_` and `_`.) -/
def pyReplace (pat rep s : List Char) : List Char :=
  pyReplaceF pat rep s.length s

/-- One pass of Python `str.title()` (ASCII part): the boolean tracks whether
the previous character was cased (a letter); a letter after an uncased
character is uppercased, a letter after a cased one is lowercased. -/
def titleAux : Bool → List Char → List Char
  | _, [] => []
  | prevCased, c :: t =>
    if c.isAlpha then
      (if prevCased then c.toLower else c.toUpper) :: titleAux true t
    else
      c :: titleAux false t

/-- Python `s.title()`. -/
def pyTitle (s : List Char) : List Char := titleAux false s

/-- The display-name derivation of `extract_all_maps`:
`map_name.replace('avg_', '').replace('_', ' ').title()`. -/
def localizedName (mapName : String) : String :=
  String.mk (pyTitle (pyReplace "_".toList " ".toList
    (pyReplace "avg_".toList [] mapName.toList)))

/-- One normalized map record of the in-memory collection. -/
structure MapRecord where
  name : String
  localized_name : String
  map_size : Option (ℚ × ℚ)
  ground_grid_step : Option ℚ
  air_grid_step : Option ℚ
  naval_grid_step : Option ℚ
  game_modes : List String
deriving DecidableEq, Repr

/-- The record assembled by `extract_all_maps` for one map directory. -/
def buildRecord (mapName : String) (d : BlkData) : MapRecord :=
  ⟨mapName, localizedName mapName, d.map_size, d.ground_grid_step,
   d.air_grid_step, d.naval_grid_step, d.game_modes⟩

/-- Reading and parsing one directory's `level.blk`: `none` content models a
read failure (the `except` branch of `parse_blk_file` catches it and returns
the falsy `{}`). -/
def parseEntry : Option String → Option BlkData
  | none => none
  | some text => parse_blk_file text

/-- Python dict insertion keyed by the map name: an existing key keeps its
position and is overwritten, a fresh key is appended at the end. -/
def insertKeyed (k : String) (v : MapRecord) :
    List (String × MapRecord) → List (String × MapRecord)
  | [] => [(k, v)]
  | (k', v') :: t => if k' = k then (k', v) :: t else (k', v') :: insertKeyed k v t

/-- `extract_all_maps`, abstracted over the filesystem: the input lists, in
discovery order, each map subdirectory that has a `level.blk`, paired with the
file's content (`none` for an unreadable file).  Directories whose parse
produces the falsy `{}` are skipped. -/
def extract_all_maps (dirs : List (String × Option String)) :
    List (String × MapRecord) :=
  dirs.foldl (fun acc e =>
    match parseEntry e.2 with
    | none => acc
    | some d => insertKeyed e.1 (buildRecord e.1 d) acc) []

/-- The structure of the interchange document, at the level at which
`json.dump` serializes the in-memory value (object keys in dict order). -/
inductive Json where
  | str : String → Json
  | num : ℚ → Json
  | arr : List Json → Json
  | obj : List (String × Json) → Json

/-- The JSON value `json.dump` writes for one record: `name` and
`localized_name` first, then each optional field only when present (in the
insertion order of `parse_blk_file`), then `game_modes`. -/
def recordToJson (r : MapRecord) : Json :=
  Json.obj
    ([("name", Json.str r.name), ("localized_name", Json.str r.localized_name)] ++
     (match r.map_size with
      | some p => [("map_size", Json.arr [Json.num p.1, Json.num p.2])]
      | none => []) ++
     (match r.ground_grid_step with
      | some v => [("ground_grid_step", Json.num v)]
      | none => []) ++
     (match r.air_grid_step with
      | some v => [("air_grid_step", Json.num v)]
      | none => []) ++
     (match r.naval_grid_step with
      | some v => [("naval_grid_step", Json.num v)]
      | none => []) ++
     [("game_modes", Json.arr (r.game_modes.map Json.str))])

/-- The Database Serializer: `json.dump(maps, f, indent=2)` emits the top
object's keys in the dict's insertion order (no `sort_keys`). -/
def serializeDB (maps : List (String × MapRecord)) : Json :=
  Json.obj (maps.map (fun p => (p.1, recordToJson p.2)))

/-- The identifier enumeration order of a serialized document. -/
def dbKeys : Json → List String
  | Json.obj l => l.map Prod.fst
  | _ => []

/-- First-match key lookup in a JSON object's field list. -/
def getField : List (String × Json) → String → Option Json
  | [], _ => none
  | (k', v) :: t, k => if k' = k then some v else getField t k

/-- String payload of a JSON value, when it is a string. -/
def asStr : Json → Option String
  | Json.str s => some s
  | _ => none

/-- Reads a JSON array of strings back into a string list. -/
def asStrList : List Json → Option (List String)
  | [] => some []
  | Json.str s :: t => (asStrList t).map (fun l => s :: l)
  | _ => none

/-- Reads one optional scalar field back: a missing key is the absent field. -/
def parseOptNum (l : List (String × Json)) (k : String) : Option (Option ℚ) :=
  match getField l k with
  | none => some none
  | some (Json.num v) => some (some v)
  | some _ => none

/-- Reads the optional `map_size` pair back: a missing key is the absent
field. -/
def parseOptSize (l : List (String × Json)) : Option (Option (ℚ × ℚ)) :=
  match getField l "map_size" with
  | none => some none
  | some (Json.arr [Json.num a, Json.num b]) => some (some (a, b))
  | some _ => none

/-- Modelled from the spec: the repository writes `wt_maps_database.json` but
contains no reader for it, so the re-parsing direction of the round-trip
requirement of §4.3 ("re-parseable to reconstruct an equivalent collection")
is modelled here: one record is reconstructed from its JSON object, absent
keys giving absent optional fields. -/
def parseRecord : Json → Option MapRecord
  | Json.obj l =>
    match (getField l "name").bind asStr, (getField l "localized_name").bind asStr,
          parseOptSize l, parseOptNum l "ground_grid_step",
          parseOptNum l "air_grid_step", parseOptNum l "naval_grid_step",
          getField l "game_modes" with
    | some n, some ln, some ms, some gg, some ag, some ng, some (Json.arr xs) =>
      (asStrList xs).map (fun gm => ⟨n, ln, ms, gg, ag, ng, gm⟩)
    | _, _, _, _, _, _, _ => none
  | _ => none

/-- Modelled from the spec: re-parsing the entries of the top-level object,
one record per key, failing if any entry fails. -/
def parseEntries : List (String × Json) → Option (List (String × MapRecord))
  | [] => some []
  | (k, j) :: t =>
    match parseRecord j, parseEntries t with
    | some r, some rest => some ((k, r) :: rest)
    | _, _ => none

/-- Modelled from the spec: re-parsing the whole interchange document. -/
def parseDB : Json → Option (List (String × MapRecord))
  | Json.obj l => parseEntries l
  | _ => none

/-- Code-point lexicographic strict order on strings, as Python compares
`str` values. -/
def lexLtC : List Char → List Char → Bool
  | [], [] => false
  | [], _ :: _ => true
  | _ :: _, [] => false
  | a :: as, b :: bs =>
    if a.toNat < b.toNat then true
    else if b.toNat < a.toNat then false
    else lexLtC as bs

/-- Insert one keyed record into an ascending list (`sorted` builds the
ascending enumeration; dict keys are unique, so ties cannot arise in the
pipeline). -/
def insertByKey (p : String × MapRecord) :
    List (String × MapRecord) → List (String × MapRecord)
  | [] => [p]
  | q :: t => if lexLtC q.1.toList p.1.toList then q :: insertByKey p t else p :: q :: t

/-- `sorted(maps.items())`: the ascending-by-identifier enumeration used by
the Source Code Generator. -/
def sortByKey (l : List (String × MapRecord)) : List (String × MapRecord) :=
  l.foldr insertByKey []

/-- Abstract syntax of one generated `self.maps.insert(...)` statement: the
fields of the emitted `MapGridInfo` literal.  An `Option` field records which
wrapper text is emitted: `some x` stands for `Some(x)`, `none` for `None`. -/
structure RustLit where
  name : String
  localized_name : String
  ground_grid_step : Option ℚ
  air_grid_step : Option ℚ
  naval_grid_step : Option ℚ
  map_size : ℚ × ℚ
  game_modes : List String
deriving DecidableEq, Repr

/-- The wrapper choice of the generator:
`f"Some({step})" if step else "None"` — Python truthiness, under which both a
missing step (`None`) and a present `0.0` are falsy and print `None`. -/
def rustOptField : Option ℚ → Option ℚ
  | none => none
  | some x => if x = 0 then none else some x

/-- The literal generated for one record (`map_size` falls back to the
default `[4096.0, 4096.0]` via `data.get`). -/
def rustEntry (mapName : String) (r : MapRecord) : RustLit :=
  ⟨mapName, r.localized_name, rustOptField r.ground_grid_step,
   rustOptField r.air_grid_step, rustOptField r.naval_grid_step,
   (match r.map_size with | some p => p | none => (4096, 4096)),
   r.game_modes⟩

/-- The Source Code Generator: one insertion statement per record, enumerated
by `sorted(maps.items())`. -/
def generate_rust_code (maps : List (String × MapRecord)) :
    List (String × RustLit) :=
  (sortByKey maps).map (fun p => (p.1, rustEntry p.1 p.2))

/-- Built from the spec's words for comparison (claim C9): derive the display
name by stripping the prefix token `avg_` once, from the front only, then
replacing separators with spaces and title-casing. -/
def specDisplayName (mapName : String) : String :=
  let stripped :=
    if "avg_".toList.isPrefixOf mapName.toList
    then mapName.toList.drop 4 else mapName.toList
  String.mk (pyTitle (pyReplace "_".toList " ".toList stripped))

/-! ### Helper lemmas about the pattern scanners -/

lemma matchLit_eq_append : ∀ {key s r : List Char}, matchLit key s = some r → s = key ++ r := by
  intro key
  induction key with
  | nil =>
    intro s r h
    simp only [matchLit, Option.some.injEq] at h
    simp [h]
  | cons c cs ih =>
    intro s r h
    cases s with
    | nil => simp [matchLit] at h
    | cons d ds =>
      simp only [matchLit] at h
      by_cases hc : c = d
      · rw [if_pos hc] at h
        simp [← hc, ih h]
      · rw [if_neg hc] at h
        exact absurd h (by simp)

lemma matchNumAt_key_le {key s cap : List Char} (h : matchNumAt key s = some cap) :
    key <+: s := by
  unfold matchNumAt at h
  cases hm : matchLit key s with
  | none => rw [hm] at h; simp at h
  | some r1 => exact ⟨r1, (matchLit_eq_append hm).symm⟩

lemma searchNum_key_occurs : ∀ {s cap key : List Char},
    searchNum key s = some cap → key <:+: s := by
  intro s
  induction s with
  | nil =>
    intro cap key h
    simp only [searchNum] at h
    exact (matchNumAt_key_le h).isInfix
  | cons c t ih =>
    intro cap key h
    simp only [searchNum] at h
    cases hm : matchNumAt key (c :: t) with
    | some cap' => exact (matchNumAt_key_le hm).isInfix
    | none =>
      rw [hm] at h
      exact List.infix_cons (ih h)

lemma matchNumAt_cap {key s cap : List Char} (h : matchNumAt key s = some cap) :
    cap ≠ [] ∧ ∀ c ∈ cap, isNumC c = true := by
  unfold matchNumAt at h
  split at h
  · exact absurd h (by simp)
  · split at h
    · exact absurd h (by simp)
    · split at h
      · dsimp only at h
        split at h
        · exact absurd h (by simp)
        · next hne =>
          injection h with h'
          subst h'
          refine ⟨by simpa [List.isEmpty_iff] using hne, ?_⟩
          intro c hc
          exact List.mem_takeWhile_imp hc
      · exact absurd h (by simp)

lemma searchNum_cap : ∀ {s cap key : List Char},
    searchNum key s = some cap → cap ≠ [] ∧ ∀ c ∈ cap, isNumC c = true := by
  intro s
  induction s with
  | nil =>
    intro cap key h
    simp only [searchNum] at h
    exact matchNumAt_cap h
  | cons c t ih =>
    intro cap key h
    simp only [searchNum] at h
    cases hm : matchNumAt key (c :: t) with
    | some cap' =>
      rw [hm] at h
      cases h
      exact matchNumAt_cap hm
    | none =>
      rw [hm] at h
      exact ih h

lemma matchMapSizeAt_cap {s : List Char} {p : List Char × List Char}
    (h : matchMapSizeAt s = some p) :
    (p.1 ≠ [] ∧ ∀ c ∈ p.1, isNumC c = true) ∧ (p.2 ≠ [] ∧ ∀ c ∈ p.2, isNumC c = true) := by
  unfold matchMapSizeAt at h
  split at h
  · exact absurd h (by simp)
  · split at h
    · exact absurd h (by simp)
    · split at h
      · split at h
        · exact absurd h (by simp)
        · split at h
          · dsimp only at h
            split at h
            · exact absurd h (by simp)
            · next hne1 =>
              split at h
              · exact absurd h (by simp)
              · split at h
                · split at h
                  · exact absurd h (by simp)
                  · next hne2 =>
                    split at h
                    · exact absurd h (by simp)
                    · split at h
                      · injection h with h'
                        subst h'
                        exact ⟨⟨by simpa [List.isEmpty_iff] using hne1,
                                 fun c hc => List.mem_takeWhile_imp hc⟩,
                               ⟨by simpa [List.isEmpty_iff] using hne2,
                                 fun c hc => List.mem_takeWhile_imp hc⟩⟩
                      · exact absurd h (by simp)
                · exact absurd h (by simp)
          · exact absurd h (by simp)
      · exact absurd h (by simp)

lemma searchMapSize_cap : ∀ {s : List Char} {p : List Char × List Char},
    searchMapSize s = some p →
    (p.1 ≠ [] ∧ ∀ c ∈ p.1, isNumC c = true) ∧ (p.2 ≠ [] ∧ ∀ c ∈ p.2, isNumC c = true) := by
  intro s
  induction s with
  | nil =>
    intro p h
    simp only [searchMapSize] at h
    exact matchMapSizeAt_cap h
  | cons c t ih =>
    intro p h
    simp only [searchMapSize] at h
    cases hm : matchMapSizeAt (c :: t) with
    | some caps =>
      rw [hm] at h
      cases h
      exact matchMapSizeAt_cap hm
    | none =>
      rw [hm] at h
      exact ih h

lemma isSubL_eq_true_iff : ∀ {s pat : List Char}, isSubL pat s = true ↔ pat <:+: s := by
  intro s
  induction s with
  | nil =>
    intro pat
    simp only [isSubL, List.isEmpty_iff]
    constructor
    · rintro rfl
      exact List.infix_rfl
    · intro h
      exact h.eq_of_length_le (by simp)
  | cons c t ih =>
    intro pat
    simp only [isSubL, Bool.or_eq_true, List.isPrefixOf_iff_prefix, ih,
      List.infix_cons_iff]

lemma searchNum_isSubL {s cap key : List Char} (h : searchNum key s = some cap) :
    isSubL key s = true :=
  isSubL_eq_true_iff.mpr (searchNum_key_occurs h)

/-! ### Helper lemmas about the extractor and the two output generators -/

lemma parse_proj {t : String} {d : BlkData} (h : parse_blk_file t = some d) :
    extractSize t.toList = some d.map_size ∧
    extractNum groundKey t.toList = some d.ground_grid_step ∧
    extractNum airKey t.toList = some d.air_grid_step ∧
    extractNum navalKey t.toList = some d.naval_grid_step ∧
    d.game_modes = gameModes t := by
  unfold parse_blk_file at h
  simp only [Option.bind_eq_some, Option.some.injEq] at h
  obtain ⟨ms, hms, gg, hgg, ag, hag, ng, hng, heq⟩ := h
  subst heq
  exact ⟨hms, hgg, hag, hng, rfl⟩

lemma mem_gameModes_air {t : String}
    (h : containsTok "air" (lowerL t.data) = true) : "air" ∈ gameModes t := by
  unfold gameModes
  cases hgr : containsTok "ground" (lowerL t.data) <;>
    cases htk : containsTok "tank" (lowerL t.data) <;>
      cases hnv : containsTok "naval" (lowerL t.data) <;>
        simp [h, hgr, htk, hnv]

lemma mem_gameModes_naval {t : String}
    (h : containsTok "naval" (lowerL t.data) = true) : "naval" ∈ gameModes t := by
  unfold gameModes
  cases hgr : containsTok "ground" (lowerL t.data) <;>
    cases htk : containsTok "tank" (lowerL t.data) <;>
      cases hai : containsTok "air" (lowerL t.data) <;>
        simp [h, hgr, htk, hai]

lemma rustOptField_eq_some_iff (v : Option ℚ) (x : ℚ) :
    rustOptField v = some x ↔ v = some x ∧ x ≠ 0 := by
  cases v with
  | none => simp [rustOptField]
  | some y =>
    simp only [rustOptField, Option.some.injEq]
    split
    · next h0 =>
      subst h0
      constructor
      · intro hc
        exact absurd hc (by simp)
      · rintro ⟨rfl, hx⟩
        exact absurd rfl hx
    · next h0 =>
      constructor
      · intro hc
        injection hc with hc
        exact ⟨hc, fun hx0 => h0 (hc.trans hx0)⟩
      · rintro ⟨hc, _⟩
        exact congrArg some hc

lemma mem_insertByKey {p q : String × MapRecord} :
    ∀ {l : List (String × MapRecord)}, q ∈ insertByKey p l ↔ q = p ∨ q ∈ l := by
  intro l
  induction l with
  | nil => simp [insertByKey]
  | cons r t ih =>
    simp only [insertByKey]
    split
    · simp only [List.mem_cons, ih]
      tauto
    · simp [List.mem_cons]

lemma mem_sortByKey {q : String × MapRecord} :
    ∀ {l : List (String × MapRecord)}, q ∈ sortByKey l ↔ q ∈ l := by
  intro l
  induction l with
  | nil => simp [sortByKey]
  | cons p t ih =>
    show q ∈ insertByKey p (sortByKey t) ↔ _
    rw [mem_insertByKey, ih]
    exact List.mem_cons.symm

lemma sortByKey_sorted_id :
    ∀ {l : List (String × MapRecord)},
      List.Pairwise (fun p q => lexLtC q.1.toList p.1.toList = false) l →
      sortByKey l = l := by
  intro l
  induction l with
  | nil => intro; rfl
  | cons p t ih =>
    intro hp
    show insertByKey p (sortByKey t) = p :: t
    rw [ih (List.pairwise_cons.mp hp).2]
    cases t with
    | nil => rfl
    | cons q t' =>
      have hpq : lexLtC q.1.data p.1.data = false :=
        (List.pairwise_cons.mp hp).1 q (by simp)
      simp [insertByKey, hpq]

lemma insertKeyed_fresh {k : String} {v : MapRecord} :
    ∀ {acc : List (String × MapRecord)}, k ∉ acc.map Prod.fst →
      insertKeyed k v acc = acc ++ [(k, v)] := by
  intro acc
  induction acc with
  | nil => intro _; rfl
  | cons e t ih =>
    intro hk
    simp only [List.map_cons, List.mem_cons, not_or] at hk
    obtain ⟨h1, h2⟩ := hk
    obtain ⟨k', v'⟩ := e
    simp only [insertKeyed]
    rw [if_neg (fun hc => h1 hc.symm), ih h2]
    rfl

lemma extract_aux :
    ∀ (dirs : List (String × Option String)) (acc : List (String × MapRecord)),
      (∀ n ∈ dirs.map Prod.fst, n ∉ acc.map Prod.fst) →
      (dirs.map Prod.fst).Nodup →
      (dirs.foldl (fun acc e =>
          match parseEntry e.2 with
          | none => acc
          | some d => insertKeyed e.1 (buildRecord e.1 d) acc) acc).map Prod.fst
        = acc.map Prod.fst ++
          (dirs.filter (fun e => (parseEntry e.2).isSome)).map Prod.fst := by
  intro dirs
  induction dirs with
  | nil =>
    intro acc _ _
    simp
  | cons e dirs' ih =>
    intro acc hdisj hnodup
    simp only [List.foldl_cons]
    cases hp : parseEntry e.2 with
    | none =>
      simp only [hp, List.filter_cons, Option.isSome_none, Bool.false_eq_true, if_false]
      exact ih acc
        (fun n hn => hdisj n (by simp only [List.map_cons, List.mem_cons]; exact Or.inr hn))
        ((List.nodup_cons.mp (by simpa using hnodup)).2)
    | some d =>
      simp only [hp, List.filter_cons, Option.isSome_some, if_true]
      rw [insertKeyed_fresh (hdisj e.1 (by simp))]
      rw [ih (acc ++ [(e.1, buildRecord e.1 d)]) ?_ ?_]
      · simp
      · intro n hn
        simp only [List.map_append, List.mem_append, List.map_cons, List.mem_singleton,
          not_or]
        constructor
        · exact hdisj n (by simp only [List.map_cons, List.mem_cons]; exact Or.inr hn)
        · intro hcontra
          have hn2 : n = e.1 := by simpa using hcontra
          have he : e.1 ∉ dirs'.map Prod.fst :=
            (List.nodup_cons.mp (by simpa using hnodup)).1
          exact he (hn2 ▸ hn)
      · exact (List.nodup_cons.mp (by simpa using hnodup)).2

lemma dbKeys_serializeDB (maps : List (String × MapRecord)) :
    dbKeys (serializeDB maps) = maps.map Prod.fst := by
  show (maps.map (fun p => (p.1, recordToJson p.2))).map Prod.fst = maps.map Prod.fst
  rw [List.map_map]
  rfl

lemma asStrList_map : ∀ (l : List String), asStrList (l.map Json.str) = some l := by
  intro l
  induction l with
  | nil => rfl
  | cons s t ih => simp [asStrList, ih]

lemma parseRecord_roundtrip (r : MapRecord) :
    parseRecord (recordToJson r) = some r := by
  rcases r with ⟨n, ln, ms, gg, ag, ng, gm⟩
  rcases ms with _ | ⟨a, b⟩ <;> rcases gg with _ | g <;>
    rcases ag with _ | ai <;> rcases ng with _ | nv <;>
      simp [recordToJson, parseRecord, getField, parseOptSize, parseOptNum,
        asStr, asStrList_map]

lemma pyReplaceF_no_occur {pat rep : List Char} :
    ∀ (fuel : ℕ) (s : List Char), s.length ≤ fuel → ¬ pat <:+: s →
      pyReplaceF pat rep fuel s = s := by
  intro fuel
  induction fuel with
  | zero =>
    intro s hlen _
    have hs : s = [] := List.length_eq_zero.mp (Nat.le_zero.mp hlen)
    subst hs
    rfl
  | succ f ih =>
    intro s hlen hno
    cases s with
    | nil => rfl
    | cons c t =>
      simp only [pyReplaceF]
      split
      · next hcond =>
        exact absurd (List.isPrefixOf_iff_prefix.mp hcond.2).isInfix hno
      · next hcond =>
        have hlt : t.length ≤ f := by
          simp only [List.length_cons] at hlen
          omega
        rw [ih t hlt (fun hinf => hno (List.infix_cons hinf))]

lemma pyReplace_avg_strip {s : List Char}
    (h : ¬ ("avg_".toList <:+: s.drop 1)) :
    pyReplace "avg_".toList [] s =
      if "avg_".toList.isPrefixOf s then s.drop 4 else s := by
  cases s with
  | nil => rfl
  | cons c t =>
    show pyReplaceF "avg_".toList [] (t.length + 1) (c :: t) = _
    simp only [pyReplaceF]
    by_cases hp : "avg_".toList.isPrefixOf (c :: t) = true
    · rw [if_pos ⟨by decide, hp⟩, if_pos hp, List.nil_append]
      refine pyReplaceF_no_occur t.length ((c :: t).drop 4) ?_ ?_
      · simp only [List.drop_succ_cons, List.length_drop]
        omega
      · intro hinf
        refine h (hinf.trans ?_)
        exact (List.drop_suffix 3 t).isInfix
    · rw [if_neg (fun hc => hp hc.2), if_neg hp]
      have ht : pyReplaceF "avg_".toList [] t.length t = t :=
        pyReplaceF_no_occur t.length t le_rfl h
      rw [ht]

lemma localizedName_eq_spec {n : String}
    (h : ¬ ("avg_".toList <:+: n.toList.drop 1)) :
    localizedName n = specDisplayName n := by
  unfold localizedName specDisplayName
  rw [pyReplace_avg_strip h]

/-! ### The claims -/

/-- Claim C1, counterexample: a record whose `ground_grid_step` is present
with value `0.0` and a record whose `ground_grid_step` is absent are distinct,
yet the Source Code Generator emits identical code for the two collections:
Python truthiness (`if ground_step`) treats a present `0.0` like `None`. -/
theorem C1_wrapper_counterexample :
    (⟨"m", "M", none, some 0, none, none, ["unknown"]⟩ : MapRecord) ≠
      (⟨"m", "M", none, none, none, none, ["unknown"]⟩ : MapRecord) ∧
    generate_rust_code [("m", ⟨"m", "M", none, some 0, none, none, ["unknown"]⟩)] =
      generate_rust_code [("m", ⟨"m", "M", none, none, none, none, ["unknown"]⟩)] := by
  exact ⟨by decide, by decide⟩

/-- Claim C1 amended: for every emitted insertion statement, each optional
grid-step field is rendered with the `Some(x)` wrapper exactly when the field
is present in the record with a nonzero value, and with the `None` wrapper
when it is absent or present with value `0.0` (Python truthiness). -/
theorem C1_wrapper_amended (maps : List (String × MapRecord)) (k : String)
    (lit : RustLit) (hmem : (k, lit) ∈ generate_rust_code maps) :
    ∃ r : MapRecord, (k, r) ∈ maps ∧ lit = rustEntry k r ∧
      (∀ x : ℚ, lit.ground_grid_step = some x ↔ r.ground_grid_step = some x ∧ x ≠ 0) ∧
      (∀ x : ℚ, lit.air_grid_step = some x ↔ r.air_grid_step = some x ∧ x ≠ 0) ∧
      (∀ x : ℚ, lit.naval_grid_step = some x ↔ r.naval_grid_step = some x ∧ x ≠ 0) := by
  unfold generate_rust_code at hmem
  rw [List.mem_map] at hmem
  obtain ⟨p, hp, heq⟩ := hmem
  have hp' : p ∈ maps := mem_sortByKey.mp hp
  obtain ⟨h1, h2⟩ := Prod.mk.injEq _ _ _ _ ▸ heq
  subst h1
  subst h2
  exact ⟨p.2, by simpa using hp', rfl,
    fun x => rustOptField_eq_some_iff _ x,
    fun x => rustOptField_eq_some_iff _ x,
    fun x => rustOptField_eq_some_iff _ x⟩

/-- Witness for C1 amended at a one-record collection whose ground step is a
present nonzero value. -/
theorem C1_wrapper_amended_witness :
    ∃ r : MapRecord,
      ("m", r) ∈ [("m", (⟨"m", "M", none, some 1, none, none, ["ground"]⟩ : MapRecord))] ∧
      rustEntry "m" (⟨"m", "M", none, some 1, none, none, ["ground"]⟩ : MapRecord) =
        rustEntry "m" r ∧
      (∀ x : ℚ, (rustEntry "m" (⟨"m", "M", none, some 1, none, none,
          ["ground"]⟩ : MapRecord)).ground_grid_step = some x ↔
        r.ground_grid_step = some x ∧ x ≠ 0) ∧
      (∀ x : ℚ, (rustEntry "m" (⟨"m", "M", none, some 1, none, none,
          ["ground"]⟩ : MapRecord)).air_grid_step = some x ↔
        r.air_grid_step = some x ∧ x ≠ 0) ∧
      (∀ x : ℚ, (rustEntry "m" (⟨"m", "M", none, some 1, none, none,
          ["ground"]⟩ : MapRecord)).naval_grid_step = some x ↔
        r.naval_grid_step = some x ∧ x ≠ 0) :=
  C1_wrapper_amended [("m", ⟨"m", "M", none, some 1, none, none, ["ground"]⟩)] "m"
    (rustEntry "m" ⟨"m", "M", none, some 1, none, none, ["ground"]⟩)
    (by simp [generate_rust_code, sortByKey, insertByKey])

/-- Claim C2, counterexample: on a collection whose dict (discovery) order is
not ascending, the Database Serializer enumerates `b` then `a` while the
Source Code Generator enumerates `a` then `b`. -/
theorem C2_order_counterexample :
    (generate_rust_code [("b", ⟨"b", "B", none, none, none, none, ["unknown"]⟩),
                         ("a", ⟨"a", "A", none, none, none, none, ["unknown"]⟩)]).map Prod.fst ≠
    dbKeys (serializeDB [("b", ⟨"b", "B", none, none, none, none, ["unknown"]⟩),
                         ("a", ⟨"a", "A", none, none, none, none, ["unknown"]⟩)]) := by
  decide

/-- Claim C2 amended: the Source Code Generator enumerates records in
ascending identifier order and the Database Serializer in dict insertion
order, so the two enumerations coincide exactly when the collection's
insertion order is already ascending. -/
theorem C2_order_amended (maps : List (String × MapRecord))
    (h : List.Pairwise (fun p q => lexLtC q.1.toList p.1.toList = false) maps) :
    (generate_rust_code maps).map Prod.fst = dbKeys (serializeDB maps) := by
  rw [dbKeys_serializeDB]
  unfold generate_rust_code
  rw [sortByKey_sorted_id h, List.map_map]
  rfl

/-- Witness for C2 amended at an ascending two-record collection. -/
theorem C2_order_amended_witness :
    (generate_rust_code [("a", ⟨"a", "A", none, none, none, none, ["unknown"]⟩),
                         ("b", ⟨"b", "B", none, none, none, none, ["unknown"]⟩)]).map Prod.fst =
    dbKeys (serializeDB [("a", ⟨"a", "A", none, none, none, none, ["unknown"]⟩),
                         ("b", ⟨"b", "B", none, none, none, none, ["unknown"]⟩)]) :=
  C2_order_amended _ (by decide)

/-- Claim C3, counterexample: two maps discovered in the order `b_map`,
`a_map` are emitted by the Database Serializer in that same discovery order,
which is not lexical ascending (`json.dump` is called without `sort_keys`). -/
theorem C3_db_order_counterexample :
    dbKeys (serializeDB (extract_all_maps [("b_map", some ""), ("a_map", some "")])) =
      ["b_map", "a_map"] ∧
    lexLtC "b_map".toList "a_map".toList = false := by
  exact ⟨rfl, by decide⟩

/-- Claim C3 amended: the Database Serializer emits the records in discovery
(dict insertion) order — the order in which the successfully parsed map
directories were enumerated — not in sorted order. -/
theorem C3_db_order_amended (dirs : List (String × Option String))
    (h : (dirs.map Prod.fst).Nodup) :
    dbKeys (serializeDB (extract_all_maps dirs)) =
      (dirs.filter (fun e => (parseEntry e.2).isSome)).map Prod.fst := by
  rw [dbKeys_serializeDB]
  unfold extract_all_maps
  simpa using extract_aux dirs [] (by simp) h

/-- Witness for C3 amended on a three-directory discovery with one
unreadable config. -/
theorem C3_db_order_amended_witness :
    dbKeys (serializeDB (extract_all_maps
      [("b_map", some ""), ("a_map", none), ("c_map", some "")])) = ["b_map", "c_map"] := by
  rw [C3_db_order_amended [("b_map", some ""), ("a_map", none), ("c_map", some "")]
    (by decide)]
  rfl

/-- Claim C4: serializing a collection to the interchange document and
re-parsing it yields the original collection (even with its order preserved,
hence in particular an order-independent equal collection). -/
theorem C4_round_trip (maps : List (String × MapRecord)) :
    parseDB (serializeDB maps) = some maps := by
  show parseEntries (maps.map (fun p => (p.1, recordToJson p.2))) = some maps
  induction maps with
  | nil => rfl
  | cons p t ih => simp [parseEntries, parseRecord_roundtrip, ih]

/-- Claim C5, counterexample: the text `gridStep: 1.2.3\nairGridStep: 10.0`
makes the whole extraction return the empty falsy result (the matched ground
capture `1.2.3` fails `float` conversion and the exception handler catches
it), while the same text without the corrupted field extracts
`air_grid_step` and `game_modes` — so one field's corruption does change the
other fields' results. -/
theorem C5_independence_counterexample :
    parse_blk_file "gridStep: 1.2.3\nairGridStep: 10.0" = none ∧
    parse_blk_file "airGridStep: 10.0" =
      some ⟨none, none, some (decToQ ['1', '0', '.', '0']), none, ["air"]⟩ :=
  ⟨by decide, rfl⟩

/-- Claim C5 amended: the extractor never raises to its caller (modelled as a
total function, with the caught-exception empty result as `none`), and in any
two extractions that both succeed each field depends only on its own pattern
search (`game_modes` only on the whole text's mode detection); but a matched
capture that fails numeric conversion aborts the whole extraction, dropping
every other field as well. -/
theorem C5_independence_amended (t1 t2 : String) (d1 d2 : BlkData)
    (h1 : parse_blk_file t1 = some d1) (h2 : parse_blk_file t2 = some d2) :
    (searchMapSize t1.toList = searchMapSize t2.toList → d1.map_size = d2.map_size) ∧
    (searchNum groundKey t1.toList = searchNum groundKey t2.toList →
      d1.ground_grid_step = d2.ground_grid_step) ∧
    (searchNum airKey t1.toList = searchNum airKey t2.toList →
      d1.air_grid_step = d2.air_grid_step) ∧
    (searchNum navalKey t1.toList = searchNum navalKey t2.toList →
      d1.naval_grid_step = d2.naval_grid_step) ∧
    (gameModes t1 = gameModes t2 → d1.game_modes = d2.game_modes) := by
  obtain ⟨hms1, hg1, ha1, hn1, hm1⟩ := parse_proj h1
  obtain ⟨hms2, hg2, ha2, hn2, hm2⟩ := parse_proj h2
  refine ⟨?_, ?_, ?_, ?_, ?_⟩
  · intro he
    have : some d1.map_size = some d2.map_size := by
      rw [← hms1, ← hms2]
      unfold extractSize
      rw [he]
    exact Option.some.inj this
  · intro he
    have : some d1.ground_grid_step = some d2.ground_grid_step := by
      rw [← hg1, ← hg2]
      unfold extractNum
      rw [he]
    exact Option.some.inj this
  · intro he
    have : some d1.air_grid_step = some d2.air_grid_step := by
      rw [← ha1, ← ha2]
      unfold extractNum
      rw [he]
    exact Option.some.inj this
  · intro he
    have : some d1.naval_grid_step = some d2.naval_grid_step := by
      rw [← hn1, ← hn2]
      unfold extractNum
      rw [he]
    exact Option.some.inj this
  · intro he
    rw [hm1, hm2, he]

/-- Witness for C5 amended: two different texts with the same air-step search
result extract the same `air_grid_step`. -/
theorem C5_independence_amended_witness :
    (⟨none, none, some (decToQ ['1', '0', '.', '0']), none,
      ["air"]⟩ : BlkData).air_grid_step =
    (⟨none, none, some (decToQ ['1', '0', '.', '0']), none,
      ["air", "naval"]⟩ : BlkData).air_grid_step :=
  (C5_independence_amended "airGridStep: 10.0" "airGridStep: 10.0 naval"
    ⟨none, none, some (decToQ ['1', '0', '.', '0']), none, ["air"]⟩
    ⟨none, none, some (decToQ ['1', '0', '.', '0']), none, ["air", "naval"]⟩
    rfl rfl).2.2.1 (by decide)

/-- Claim C6, counterexample: the ground-step pattern matches the text
`gridStep: 1.2.3` with capture `1.2.3`, which is not a valid decimal lexeme:
`float` conversion fails on it, and the whole extraction returns the empty
result rather than merely leaving the field absent. -/
theorem C6_capture_counterexample :
    searchNum groundKey "gridStep: 1.2.3".toList = some ['1', '.', '2', '.', '3'] ∧
    pyFloat ['1', '.', '2', '.', '3'] = none ∧
    parse_blk_file "gridStep: 1.2.3" = none := by
  exact ⟨by decide, by decide, by decide⟩

/-- Claim C6 amended: whenever a numeric pattern matches, the capture is a
non-empty run of digits and periods, but it need not be a valid decimal
lexeme — conversion succeeds only when the capture has at most one period
(and at least one digit); a capture such as `1.2.3` matches yet fails
conversion, which empties the whole record. -/
theorem C6_capture_amended :
    (∀ (key cap : List Char) (t : String), searchNum key t.toList = some cap →
      cap ≠ [] ∧ ∀ c ∈ cap, isNumC c = true) ∧
    (∀ (t : String) (p : List Char × List Char), searchMapSize t.toList = some p →
      (p.1 ≠ [] ∧ ∀ c ∈ p.1, isNumC c = true) ∧
      (p.2 ≠ [] ∧ ∀ c ∈ p.2, isNumC c = true)) :=
  ⟨fun _ _ _ h => searchNum_cap h, fun _ _ h => searchMapSize_cap h⟩

/-- Witness for C6 amended at the ground pattern on `gridStep : 25.5`. -/
theorem C6_capture_amended_witness :
    (['2', '5', '.', '5'] : List Char) ≠ [] ∧
    ∀ c ∈ (['2', '5', '.', '5'] : List Char), isNumC c = true :=
  C6_capture_amended.1 groundKey ['2', '5', '.', '5'] "gridStep : 25.5" (by decide)

/-- Claim C7, counterexample: a map directory whose config file is unreadable
produces no record at all — `parse_blk_file` returns the falsy `{}` and
`extract_all_maps` skips the entry — rather than a record with
`game_modes = ["unknown"]`. -/
theorem C7_unreadable_counterexample :
    extract_all_maps [("some_map", none)] = [] := rfl

/-- Claim C7 amended: an empty config file yields a record with every
optional field absent and `game_modes = ["unknown"]`, while an unreadable
config file yields no record for that map at all. -/
theorem C7_empty_unreadable_amended (n : String) :
    extract_all_maps [(n, some "")] =
      [(n, ⟨n, localizedName n, none, none, none, none, ["unknown"]⟩)] ∧
    extract_all_maps [(n, none)] = [] :=
  ⟨rfl, rfl⟩

/-- Claim C8: in a config text containing the air or naval key token but not
the (case-sensitive) ground key token `gridStep`, the ground pattern finds no
match and the extracted `ground_grid_step` is absent; moreover the ground key
token does not occur inside either of the other two key tokens, so those
tokens alone can never produce a ground match. -/
theorem C8_no_cross_matching (t : String)
    (hkeys : isSubL airKey t.toList = true ∨ isSubL navalKey t.toList = true)
    (hng : isSubL groundKey t.toList = false) :
    searchNum groundKey t.toList = none ∧
    (∀ d : BlkData, parse_blk_file t = some d → d.ground_grid_step = none) ∧
    isSubL groundKey airKey = false ∧ isSubL groundKey navalKey = false := by
  have hsearch : searchNum groundKey t.toList = none := by
    rcases hs : searchNum groundKey t.toList with _ | cap
    · rfl
    · have hc := searchNum_isSubL hs
      rw [hng] at hc
      exact Bool.noConfusion hc
  refine ⟨hsearch, ?_, by decide, by decide⟩
  intro d hparse
  obtain ⟨-, hg, -, -, -⟩ := parse_proj hparse
  rw [extractNum, hsearch] at hg
  simp only [convertOpt, Option.some.injEq] at hg
  exact hg.symm

/-- Witness for C8 on a text with both the air and naval key tokens. -/
theorem C8_no_cross_matching_witness :
    searchNum groundKey "airGridStep: 10.0\nnavalGridStep: 20.0".toList = none ∧
    (⟨none, none, some (decToQ ['1', '0', '.', '0']), some (decToQ ['2', '0', '.', '0']),
      ["air", "naval"]⟩ : BlkData).ground_grid_step = none := by
  have h := C8_no_cross_matching "airGridStep: 10.0\nnavalGridStep: 20.0"
    (Or.inl (by decide)) (by decide)
  exact ⟨h.1, h.2.1 _ rfl⟩

/-- Claim C9, counterexample: for the identifier `x_avg_y` the code removes
the prefix token `avg_` even in the middle of the identifier (`str.replace`
replaces every occurrence), producing `X Y`, while the spec's
"strip a leading prefix token" derivation produces `X Avg Y`. -/
theorem C9_display_name_counterexample :
    localizedName "x_avg_y" ≠ specDisplayName "x_avg_y" ∧
    localizedName "x_avg_y" = "X Y" ∧ specDisplayName "x_avg_y" = "X Avg Y" := by
  exact ⟨by decide, by decide, by decide⟩

/-- Claim C9 amended: the display name removes every occurrence of the prefix
token `avg_` (not only a leading one), then replaces separators with spaces
and title-cases; it agrees with the spec's leading-strip derivation exactly
on identifiers in which the token occurs nowhere past the front.  The
derivation is a deterministic function of the identifier alone. -/
theorem C9_display_name_amended (n : String)
    (h : isSubL "avg_".toList (n.toList.drop 1) = false) :
    localizedName n = specDisplayName n := by
  apply localizedName_eq_spec
  intro hinf
  have hc := isSubL_eq_true_iff.mpr hinf
  rw [h] at hc
  exact Bool.noConfusion hc

/-- Witness for C9 amended at a leading-prefix identifier. -/
theorem C9_display_name_amended_witness :
    localizedName "avg_port_city" = specDisplayName "avg_port_city" :=
  C9_display_name_amended "avg_port_city" (by decide)

/-- Claim C10: in every successful extraction, a present `air_grid_step`
forces `"air"` into `game_modes` and a present `naval_grid_step` forces
`"naval"`, because the matched key tokens `airGridStep` / `navalGridStep`
themselves contain the substrings the mode detection looks for; no analogous
implication holds for `ground_grid_step`, as witnessed by a text whose only
content is a ground step. -/
theorem C10_grid_step_modes :
    (∀ (t : String) (d : BlkData), parse_blk_file t = some d →
      (d.air_grid_step ≠ none → "air" ∈ d.game_modes) ∧
      (d.naval_grid_step ≠ none → "naval" ∈ d.game_modes)) ∧
    (∃ (t : String) (d : BlkData), parse_blk_file t = some d ∧
      d.ground_grid_step ≠ none ∧ "ground" ∉ d.game_modes) := by
  constructor
  · intro t d hparse
    obtain ⟨-, -, hair, hnaval, hmodes⟩ := parse_proj hparse
    constructor
    · intro hne
      rw [hmodes]
      rcases hs : searchNum airKey t.toList with _ | cap
      · rw [extractNum, hs] at hair
        simp only [convertOpt, Option.some.injEq] at hair
        exact absurd hair.symm hne
      · have hinf : airKey <:+: t.toList := searchNum_key_occurs hs
        have hair3 : "air".toList <:+: t.toList :=
          List.IsInfix.trans (by decide : "air".toList <:+: airKey) hinf
        have hmap := hair3.map Char.toLower
        rw [show "air".toList.map Char.toLower = "air".toList from by decide] at hmap
        exact mem_gameModes_air (isSubL_eq_true_iff.mpr hmap)
    · intro hne
      rw [hmodes]
      rcases hs : searchNum navalKey t.toList with _ | cap
      · rw [extractNum, hs] at hnaval
        simp only [convertOpt, Option.some.injEq] at hnaval
        exact absurd hnaval.symm hne
      · have hinf : navalKey <:+: t.toList := searchNum_key_occurs hs
        have hnv3 : "naval".toList <:+: t.toList :=
          List.IsInfix.trans (by decide : "naval".toList <:+: navalKey) hinf
        have hmap := hnv3.map Char.toLower
        rw [show "naval".toList.map Char.toLower = "naval".toList from by decide] at hmap
        exact mem_gameModes_naval (isSubL_eq_true_iff.mpr hmap)
  · exact ⟨"gridStep: 5.0",
      ⟨none, some (decToQ ['5', '.', '0']), none, none, ["unknown"]⟩,
      rfl, by simp, by decide⟩

/-- Witness for C10 on a text carrying both an air and a naval grid step. -/
theorem C10_grid_step_modes_witness :
    "air" ∈ (["air", "naval"] : List String) ∧
    "naval" ∈ (["air", "naval"] : List String) := by
  have h := C10_grid_step_modes.1 "airGridStep: 5.0\nnavalGridStep: 2.0"
    ⟨none, none, some (decToQ ['5', '.', '0']), some (decToQ ['2', '.', '0']),
      ["air", "naval"]⟩ rfl
  exact ⟨h.1 (Option.some_ne_none _), h.2 (Option.some_ne_none _)⟩

end Tailgunner
